import Mathlib

/-!
# Verification of the `setup-crate` release-resolution and install logic

A shallow embedding of the core of the `setup-crate` GitHub action:

* `getTargets` embeds `src/setup-crate/src/index.ts` lines 15–36;
* `getRelease` (with `assetMatch`, `toCandidate`, `pageReleases`,
  `paginateReleases`, `getReleaseFromPages`) embeds lines 93–135;
* `handleBadBinaryPermissions` embeds lines 137–160;
* `checkOrInstallTool` (with `stageArtifact`, `normalizeDir`) embeds
  lines 170–228, over an explicit world state (tool cache, release pages,
  filesystem) with an explicit trace of observable effects;
* `mainValidate` embeds the input-validation part of `src/src/index.ts`.

External collaborators (the semver matcher, the `@actions/tool-cache`
primitives `find` / `cacheDir`, download and archive extraction) are not
part of the repository; they are modelled from the specification's
interface contracts, as noted on each definition.

String scanning is implemented over character lists so that every
definition evaluates inside the kernel.
-/

/-- `needle.isPrefixOf hay || ...` scan: JavaScript `hay.includes(needle)`
restricted to character lists. -/
def listContainsSub (needle : List Char) : List Char → Bool
  | [] => needle.isEmpty
  | c :: cs => needle.isPrefixOf (c :: cs) || listContainsSub needle cs

/-- JavaScript `hay.includes(needle)` for strings. -/
def strContains (hay needle : String) : Bool :=
  listContainsSub needle.data hay.data

/-- JavaScript `s.endsWith(suf)`. -/
def strEndsWith (s suf : String) : Bool :=
  List.isSuffixOf suf.data s.data

/-- JavaScript `s.toLowerCase()` (ASCII, as used on tool/file names). -/
def strToLower (s : String) : String :=
  String.mk (s.data.map Char.toLower)

/-- Split a string at every occurrence of a separator character. -/
def splitOnCharAux (sep : Char) : List Char → List Char → List (List Char)
  | [], acc => [acc.reverse]
  | c :: cs, acc =>
      if c = sep then acc.reverse :: splitOnCharAux sep cs []
      else splitOnCharAux sep cs (c :: acc)

/-- Split a string at every occurrence of a separator character. -/
def splitOnChar (sep : Char) (s : String) : List String :=
  (splitOnCharAux sep s.data []).map String.mk

/-- Join a list of strings with a separator, inverse of `splitOnChar`. -/
def strJoinSep (sep : String) : List String → String
  | [] => ""
  | [x] => x
  | x :: xs => x ++ sep ++ strJoinSep sep xs

/-- Node `path.dirname` on the well-formed absolute paths the model uses. -/
def dirname (p : String) : String :=
  strJoinSep "/" ((splitOnChar '/' p).dropLast)

/-- Node `path.basename` on the well-formed absolute paths the model uses. -/
def basename (p : String) : String :=
  (splitOnChar '/' p).getLastD ""

/-- Node `path.join(dir, name)` for one extra component. -/
def pathJoin (d n : String) : String := d ++ "/" ++ n

/-- JavaScript string interpolation of a possibly-`undefined` value:
`undefined` prints as `"undefined"`. -/
def jsUndef : Option String → String
  | some s => s
  | none => "undefined"

/-- JavaScript truthiness of a possibly-`undefined` string. -/
def jsTruthy : Option String → Bool
  | some s => s != ""
  | none => false

/-- JavaScript `s.split(sep, 2)` destructured as `[a, b]`: the limit
truncates, so at most the first two fields survive. -/
def jsSplitLimit2 (sep : Char) (s : String) : String × Option String :=
  match (splitOnChar sep s).take 2 with
  | [a] => (a, none)
  | [a, b] => (a, some b)
  | _ => (s, none)

/-- `tag_name.replace(/^v/, "")`: strip one leading `v` if present. -/
def stripV (tag : String) : String :=
  match tag.data with
  | 'v' :: rest => String.mk rest
  | _ => tag

/-- The semver matcher `semver.satisfies` is an external library; the
release locator is parameterised by it. -/
abbrev SatFn := String → String → Bool

/-- A tool to install from GitHub (`Tool` in `src/setup-crate/src/index.ts`). -/
structure Tool where
  owner : String
  name : String
  versionSpec : Option String
  bin : Option String
deriving DecidableEq, Repr

/-- An installed tool (`InstalledTool` in `src/setup-crate/src/index.ts`). -/
structure InstalledTool where
  owner : String
  name : String
  version : String
  dir : String
  bin : Option String
deriving DecidableEq, Repr

/-- A release asset as returned by the GitHub API: filename and direct
download URL. -/
structure Asset where
  name : String
  browser_download_url : String
deriving DecidableEq, Repr

/-- A release as returned by the GitHub API: tag plus attached assets. -/
structure GhRelease where
  tag_name : String
  assets : List Asset
deriving DecidableEq, Repr

/-- A located release candidate (`Release` in `src/setup-crate/src/index.ts`). -/
structure Release where
  version : String
  downloadUrl : String
deriving DecidableEq, Repr

/-- Error message template of `getTargets` (line 33–35). -/
def targetsErrMsg (arch platform : String) : String :=
  "failed to determine any valid targets; arch = " ++ arch ++
    ", platform = " ++ platform

/-- `getTargets` (lines 15–36): map (arch, platform) to the ordered list of
accepted Rust target identifiers, failing outside the supported table. -/
def getTargets (arch platform : String) : Except String (List String) :=
  if arch = "x64" then
    if platform = "linux" then
      .ok ["x86_64-unknown-linux-musl", "x86_64-unknown-linux-gnu"]
    else if platform = "darwin" then
      .ok ["x86_64-apple-darwin"]
    else if platform = "win32" then
      .ok ["x86_64-pc-windows-msvc"]
    else .error (targetsErrMsg arch platform)
  else if arch = "arm64" then
    if platform = "linux" then
      .ok ["aarch64-unknown-linux-musl", "aarch64-unknown-linux-gnu"]
    else if platform = "darwin" then
      .ok ["aarch64-apple-darwin"]
    else .error (targetsErrMsg arch platform)
  else .error (targetsErrMsg arch platform)

/-- Line 104–106: `rel.assets.find(ass => targets.some(t => ass.name.includes(t)))` —
the first asset, in the release's own asset order, whose filename contains
any accepted target. -/
def assetMatch (targets : List String) (assets : List Asset) : Option Asset :=
  assets.find? (fun a => targets.any (fun t => strContains a.name t))

/-- Lines 103–113: build a candidate from a release when some asset matches. -/
def toCandidate (targets : List String) (rel : GhRelease) : Option Release :=
  (assetMatch targets rel.assets).map
    (fun a => { version := stripV rel.tag_name, downloadUrl := a.browser_download_url })

/-- Lines 115–119: the version filter — with no `versionSpec` every
candidate passes; otherwise `semver.satisfies` decides. -/
def versionOk (s : SatFn) (vs : Option String) (r : Release) : Bool :=
  match vs with
  | some v => s r.version v
  | none => true

/-- Lines 102–119: the per-page mapping — candidates of the page's
releases, version-filtered. -/
def pageReleases (s : SatFn) (targets : List String) (vs : Option String)
    (page : List GhRelease) : List Release :=
  (page.filterMap (toCandidate targets)).filter (versionOk s vs)

/-- Lines 97–125: `octokit.paginate` with the early-stop callback — page
results are accumulated, and `done()` stops after the first page whose
mapping is non-empty. -/
def paginateReleases (f : List GhRelease → List Release) :
    List (List GhRelease) → List Release
  | [] => []
  | p :: rest =>
      let rs := f p
      if rs.length > 0 then rs else rs ++ paginateReleases f rest

/-- Error message of lines 129–131. -/
def releaseErrMsg (name : String) (vs : Option String) : String :=
  "no release for " ++ name ++ " matching version specifier " ++ jsUndef vs

/-- Lines 126–134: take the first accumulated candidate, or fail naming the
tool and the version specifier. -/
def getReleaseFromPages (s : SatFn) (targets : List String) (name : String)
    (vs : Option String) (pages : List (List GhRelease)) : Except String Release :=
  match (paginateReleases (pageReleases s targets vs) pages).head? with
  | some r => .ok r
  | none => .error (releaseErrMsg name vs)

/-- `getRelease` (lines 93–135): resolve targets, then walk the pages. -/
def getRelease (s : SatFn) (arch platform : String) (tool : Tool)
    (pages : List (List GhRelease)) : Except String Release := do
  let targets ← getTargets arch platform
  getReleaseFromPages s targets tool.name tool.versionSpec pages

/-- A release qualifies when it has a matching asset and its stripped tag
passes the version filter (the conjunction of lines 104–106 and 115–119). -/
def qualifies (s : SatFn) (targets : List String) (vs : Option String)
    (rel : GhRelease) : Bool :=
  match toCandidate targets rel with
  | some c => versionOk s vs c
  | none => false

/-- Metadata of a filesystem entry: directory flag and permission bits. -/
structure FileMeta where
  isDir : Bool
  mode : Nat
deriving DecidableEq, Repr

/-- A filesystem entry: containing directory, entry name, metadata.  Every
filesystem operation the source performs forms paths as
`path.join(dir, name)`, so entries are addressed by that pair. -/
structure FsEntry where
  dir : String
  name : String
  meta : FileMeta
deriving DecidableEq, Repr

/-- The modelled filesystem: a finite list of entries. -/
abbrev FS := List FsEntry

/-- Look up the entry `dir/name` (first match wins). -/
def fsLookup : FS → String → String → Option FileMeta
  | [], _, _ => none
  | e :: fs, d, n =>
      if e.dir = d ∧ e.name = n then some e.meta else fsLookup fs d n

/-- `fs.readdir(d)`: the names of the immediate entries of `d`. -/
def readdir (fs : FS) (d : String) : List String :=
  (fs.filter (fun e => e.dir = d)).map (·.name)

/-- `fs.chmod(path.join(d, n), m)` on an existing entry. -/
def fsSetMode (fs : FS) (d n : String) (m : Nat) : FS :=
  fs.map (fun e =>
    if e.dir = d ∧ e.name = n then { e with meta := { e.meta with mode := m } } else e)

/-- `fs.access(-, X_OK)` succeeds when some execute bit is set. -/
def canExecute (m : Nat) : Bool := (m &&& 0o111) != 0

/-- An entry of the local tool cache.  Modelled from the spec: the cache
maps (tool name, exact version) to a stable cache directory; `sourceDir`
records which directory was stored by `cacheDir`. -/
structure CacheEntry where
  name : String
  version : String
  dir : String
  sourceDir : String
deriving DecidableEq, Repr

/-- Modelled from the spec: `tc.find(name, versionConstraint)` of the local
tool cache returns the directory of an entry for the tool whose version
satisfies the constraint, or is absent. -/
def tcFind (s : SatFn) : List CacheEntry → String → String → Option String
  | [], _, _ => none
  | e :: cache, name, spec =>
      if e.name = name ∧ s e.version spec = true then some e.dir
      else tcFind s cache name spec

/-- The tool-cache root used by the model's cache paths. -/
def toolCacheRoot : String := "/opt/hostedtoolcache"

/-- Modelled from the spec: the final cache directory's parent directory
name encodes the exact version (`<root>/<name>/<version>/<arch>`). -/
def cachePath (name version : String) : String :=
  toolCacheRoot ++ "/" ++ name ++ "/" ++ version ++ "/x64"

/-- Modelled from the spec: `tc.cacheDir(sourceDir, name, version)` stores
the source directory into the cache keyed by (name, version), copying its
immediate entries to the stable cache directory, and returns that
directory. -/
def tcCacheDir (cache : List CacheEntry) (fs : FS) (sourceDir name version : String) :
    String × List CacheEntry × FS :=
  let dir := cachePath name version
  let copied := (fs.filter (fun e => e.dir = sourceDir)).map (fun e => { e with dir := dir })
  (dir, { name := name, version := version, dir := dir, sourceDir := sourceDir } :: cache, copied ++ fs)

/-- Observable effects of an installer run: release-listing requests, asset
downloads, archive extraction, filesystem mutation. -/
inductive Effect where
  | network
  | download (url : String)
  | extract
  | fsMutation
deriving DecidableEq, Repr

/-- Parent of the well-known staging directory of line 197. -/
def stagingDirParent : String := "/tmp"

/-- Name of the well-known staging directory of line 197. -/
def stagingDirName : String := "extractions-setup-crate-binaries"

/-- The well-known staging directory `/tmp/extractions-setup-crate-binaries`. -/
def stagingDir : String := stagingDirParent ++ "/" ++ stagingDirName

/-- The world an installer run acts on: tool cache, release pages
(newest-first), filesystem, and the fresh directory (plus deposited
entries) that archive extraction would produce. -/
structure World where
  cache : List CacheEntry
  pages : List (List GhRelease)
  fs : FS
  extractDirPath : String
  extractedEntries : FS
deriving Repr

/-- Lines 187–207: extract a downloaded artifact, or stage a naked binary.
Archive suffixes extract into the fresh directory.  Otherwise the code
calls `fs.mkdir(stagingDir, { recursive: true })` — which resolves with the
first directory created, and with `undefined` when the directory already
exists — and then throws when the result is falsy, before moving the
artifact to `stagingDir/<name>`.  Returns (extraction root, filesystem,
effects). -/
def stageArtifact (tool : Tool) (rel : Release) (w : World) :
    Except String (String × FS × List Effect) :=
  if strEndsWith rel.downloadUrl ".zip" then
    .ok (w.extractDirPath, w.extractedEntries ++ w.fs, [.extract])
  else if strEndsWith rel.downloadUrl ".tar.gz" || strEndsWith rel.downloadUrl ".tgz" then
    .ok (w.extractDirPath, w.extractedEntries ++ w.fs, [.extract])
  else
    match fsLookup w.fs stagingDirParent stagingDirName with
    | some _ => .error "Failed to create temporary directory for binary extraction"
    | none =>
        .ok (stagingDir,
          { dir := stagingDir, name := tool.name, meta := { isDir := false, mode := 0o644 } } ::
            { dir := stagingDirParent, name := stagingDirName,
              meta := { isDir := true, mode := 0o777 } } :: w.fs,
          [.fsMutation, .fsMutation])

/-- Lines 209–216: when the extraction root holds exactly one entry and it
is a directory, descend into it once; `lstat` on a missing entry rejects. -/
def normalizeDir (fs : FS) (d : String) : Except String String :=
  match readdir fs d with
  | [f] =>
      match fsLookup fs d f with
      | some m => .ok (if m.isDir then pathJoin d f else d)
      | none => .error "ENOENT: lstat"
  | _ => .ok d

/-- Lines 143–151: scan the directory for a case-insensitive match of the
tool name, falling back to the tool name itself. -/
def findBin (fs : FS) (d name : String) : String :=
  match (readdir fs d).find? (fun f => strToLower f == strToLower name) with
  | some f => f
  | none => name

/-- Line 152: explicit `bin` if given, else `findBin`. -/
def locatedBin (tool : Tool) (fs : FS) (d : String) : String :=
  match tool.bin with
  | some b => b
  | none => findBin fs d tool.name

/-- `handleBadBinaryPermissions` (lines 137–160): on win32, do nothing; else
locate the binary, and when the executability check fails, `chmod` it to
0o755 (a missing binary makes the `chmod` itself reject). -/
def handleBadBinaryPermissions (platform : String) (tool : Tool) (d : String)
    (fs : FS) : Except String (FS × List Effect) :=
  if platform = "win32" then .ok (fs, [])
  else
    let binary := locatedBin tool fs d
    match fsLookup fs d binary with
    | some m =>
        if canExecute m.mode then .ok (fs, [])
        else .ok (fsSetMode fs d binary 0o755, [.fsMutation])
    | none => .error ("ENOENT: chmod " ++ pathJoin d binary)

/-- `checkOrInstallTool` (lines 170–228): check the cache; on a miss,
locate the release, download, stage/extract, normalize a single nested
directory, cache, repair permissions; finally re-derive the version from
the cache path and return the installed tool.  The returned triple also
carries the updated world and the trace of observable effects. -/
def checkOrInstallTool (s : SatFn) (arch platform : String) (tool : Tool)
    (w : World) : Except String (InstalledTool × World × List Effect) :=
  match tcFind s w.cache tool.name (tool.versionSpec.getD "*") with
  | some dir =>
      .ok ({ owner := tool.owner, name := tool.name,
             version := basename (dirname dir), dir := dir, bin := tool.bin }, w, [])
  | none =>
      match getRelease s arch platform tool w.pages with
      | .error e => .error e
      | .ok rel =>
          match stageArtifact tool rel w with
          | .error e => .error e
          | .ok (extractDir, fs1, effs1) =>
              match normalizeDir fs1 extractDir with
              | .error e => .error e
              | .ok extractDir2 =>
                  let (dir, cache2, fs2) :=
                    tcCacheDir w.cache fs1 extractDir2 tool.name rel.version
                  match handleBadBinaryPermissions platform tool dir fs2 with
                  | .error e => .error e
                  | .ok (fs3, effs3) =>
                      .ok ({ owner := tool.owner, name := tool.name,
                             version := basename (dirname dir), dir := dir,
                             bin := tool.bin },
                           { w with cache := cache2, fs := fs3 },
                           [.network, .download rel.downloadUrl] ++ effs1 ++
                             [.fsMutation] ++ effs3)

/-- The action's raw inputs (`core.getInput` returns `""` when absent). -/
structure ActionInputs where
  repoSpec : String
  owner : String
  name : String
  githubToken : String
  versionSpec : String
deriving DecidableEq, Repr

/-- Outcome of the input-validation part of `main` (`src/src/index.ts`):
either `core.setFailed` with a message and return, or a call into
`checkOrInstallTool` — the only step that touches the network. -/
inductive MainOutcome where
  | failed (msg : String)
  | invoke (owner : String) (name : Option String) (versionSpec : String) (auth : String)
deriving DecidableEq, Repr

/-- Message of line 16 of `src/src/index.ts`. -/
def conflictRepoOwnerMsg : String :=
  "When 'repo' is supplied, 'owner' and 'name' must not be provided"

/-- Message of line 30 of `src/src/index.ts`. -/
def conflictTwoVersionsMsg : String :=
  "Both 'version' and 'repo' have a version specified, only one is allowed"

/-- `main` (`src/src/index.ts` lines 7–40) up to the point where
`checkOrInstallTool` is invoked: validate mutually exclusive inputs, parse
the combined `owner/name[@version]` spec, and hand over the tool. -/
def mainValidate (i : ActionInputs) : MainOutcome :=
  if i.repoSpec ≠ "" then
    if i.owner ≠ "" ∨ i.name ≠ "" then .failed conflictRepoOwnerMsg
    else
      let rv := jsSplitLimit2 '@' i.repoSpec
      if jsTruthy rv.2 && i.versionSpec ≠ "" then .failed conflictTwoVersionsMsg
      else
        let vSpec := match rv.2 with
          | some v => if v ≠ "" then v else i.versionSpec
          | none => i.versionSpec
        let ownName := jsSplitLimit2 '/' rv.1
        .invoke ownName.1 ownName.2 vSpec i.githubToken
  else
    if i.owner = "" ∨ i.name = "" then
      .failed "Both 'owner' and 'name' must be supplied when 'repo' is not provided"
    else
      .invoke i.owner (some i.name) i.versionSpec i.githubToken

/-! ## Helper lemmas -/

theorem pageReleases_nil_iff (s : SatFn) (ts : List String) (vs : Option String)
    (page : List GhRelease) :
    pageReleases s ts vs page = [] ↔ ∀ rel ∈ page, qualifies s ts vs rel = false := by
  induction page with
  | nil => simp [pageReleases]
  | cons r page ih =>
      simp only [pageReleases, List.filterMap_cons] at ih ⊢
      cases hc : toCandidate ts r with
      | none =>
          simp only [hc]
          constructor
          · intro h rel hrel
            rcases List.mem_cons.1 hrel with hrel | hrel
            · subst hrel; simp [qualifies, hc]
            · exact ih.1 h rel hrel
          · intro h
            exact ih.2 (fun rel hrel => h rel (List.mem_cons.2 (Or.inr hrel)))
      | some c =>
          simp only [hc, List.filter_cons]
          by_cases hv : versionOk s vs c = true
          · rw [if_pos hv]
            constructor
            · intro h; cases h
            · intro h
              have hq := h r (List.mem_cons.2 (Or.inl rfl))
              simp [qualifies, hc, hv] at hq
          · rw [if_neg hv]
            constructor
            · intro h rel hrel
              rcases List.mem_cons.1 hrel with hrel | hrel
              · subst hrel
                simp only [qualifies, hc]
                simpa using hv
              · exact ih.1 h rel hrel
            · intro h
              exact ih.2 (fun rel hrel => h rel (List.mem_cons.2 (Or.inr hrel)))

theorem pageReleases_cons_decomp (s : SatFn) (ts : List String) (vs : Option String)
    (page : List GhRelease) (c : Release) (cs : List Release)
    (h : pageReleases s ts vs page = c :: cs) :
    ∃ rpre rel rpost, page = rpre ++ rel :: rpost ∧
      (∀ x ∈ rpre, qualifies s ts vs x = false) ∧
      qualifies s ts vs rel = true ∧ toCandidate ts rel = some c := by
  induction page generalizing cs with
  | nil => cases h
  | cons r page ih =>
      simp only [pageReleases, List.filterMap_cons] at h
      cases hc : toCandidate ts r with
      | none =>
          simp only [hc] at h
          rcases ih cs h with ⟨rpre, rel, rpost, h1, h2, h3, h4⟩
          refine ⟨r :: rpre, rel, rpost, by simp [h1], ?_, h3, h4⟩
          intro x hx
          rcases List.mem_cons.1 hx with hx | hx
          · subst hx; simp [qualifies, hc]
          · exact h2 x hx
      | some c' =>
          simp only [hc, List.filter_cons] at h
          by_cases hv : versionOk s vs c' = true
          · rw [if_pos hv] at h
            injection h with h1 h2
            subst h1
            exact ⟨[], r, page, rfl, by simp, by simp [qualifies, hc, hv], hc⟩
          · rw [if_neg hv] at h
            rcases ih cs h with ⟨rpre, rel, rpost, h1, h2, h3, h4⟩
            refine ⟨r :: rpre, rel, rpost, by simp [h1], ?_, h3, h4⟩
            intro x hx
            rcases List.mem_cons.1 hx with hx | hx
            · subst hx
              simp only [qualifies, hc]
              simpa using hv
            · exact h2 x hx

theorem paginateReleases_pre_nil (f : List GhRelease → List Release)
    (pre rest : List (List GhRelease)) (h : ∀ p ∈ pre, f p = []) :
    paginateReleases f (pre ++ rest) = paginateReleases f rest := by
  induction pre with
  | nil => rfl
  | cons p pre ih =>
      have hp : f p = [] := h p (by simp)
      simp only [List.cons_append, paginateReleases, hp]
      simpa using ih (fun q hq => h q (by simp [hq]))

theorem paginateReleases_cons_of_ne_nil (f : List GhRelease → List Release)
    (p : List GhRelease) (rest : List (List GhRelease)) (c : Release)
    (cs : List Release) (h : f p = c :: cs) :
    paginateReleases f (p :: rest) = c :: cs := by
  simp [paginateReleases, h]

theorem paginateReleases_eq_nil (f : List GhRelease → List Release)
    (pages : List (List GhRelease)) (h : ∀ p ∈ pages, f p = []) :
    paginateReleases f pages = [] := by
  induction pages with
  | nil => rfl
  | cons p rest ih =>
      have hp : f p = [] := h p (by simp)
      simp only [paginateReleases, hp]
      simpa using ih (fun q hq => h q (by simp [hq]))

theorem mem_paginateReleases (f : List GhRelease → List Release)
    (pages : List (List GhRelease)) (r : Release)
    (h : r ∈ paginateReleases f pages) : ∃ p ∈ pages, r ∈ f p := by
  induction pages with
  | nil => simp [paginateReleases] at h
  | cons p rest ih =>
      simp only [paginateReleases] at h
      by_cases hl : (f p).length > 0
      · rw [if_pos hl] at h
        exact ⟨p, by simp, h⟩
      · rw [if_neg hl] at h
        rcases List.mem_append.1 h with h1 | h2
        · exact ⟨p, by simp, h1⟩
        · rcases ih h2 with ⟨q, hq, hr⟩
          exact ⟨q, by simp [hq], hr⟩

theorem versionOk_of_mem_pageReleases (s : SatFn) (ts : List String)
    (vs : Option String) (page : List GhRelease) (r : Release)
    (h : r ∈ pageReleases s ts vs page) : versionOk s vs r = true :=
  (List.mem_filter.1 h).2

theorem getReleaseFromPages_ok_versionOk (s : SatFn) (ts : List String)
    (name : String) (vs : Option String) (pages : List (List GhRelease))
    (r : Release) (h : getReleaseFromPages s ts name vs pages = .ok r) :
    versionOk s vs r = true := by
  unfold getReleaseFromPages at h
  cases hh : (paginateReleases (pageReleases s ts vs) pages).head? with
  | none => rw [hh] at h; cases h
  | some r' =>
      rw [hh] at h
      injection h with h
      subst h
      have hmem := List.mem_of_mem_head? hh
      rcases mem_paginateReleases _ _ _ hmem with ⟨p, _, hr⟩
      exact versionOk_of_mem_pageReleases _ _ _ _ _ hr

theorem getRelease_ok_versionOk (s : SatFn) (arch platform : String)
    (tool : Tool) (pages : List (List GhRelease)) (r : Release)
    (h : getRelease s arch platform tool pages = .ok r) :
    versionOk s tool.versionSpec r = true := by
  unfold getRelease at h
  cases ht : getTargets arch platform with
  | error e => rw [ht] at h; cases h
  | ok ts =>
      rw [ht] at h
      exact getReleaseFromPages_ok_versionOk _ _ _ _ _ _ h

theorem find?_decomp {α : Type} (p : α → Bool) (l : List α) (a : α)
    (h : l.find? p = some a) :
    ∃ pre post, l = pre ++ a :: post ∧ (∀ b ∈ pre, p b = false) ∧ p a = true := by
  induction l with
  | nil => cases h
  | cons x xs ih =>
      by_cases hx : p x = true
      · rw [List.find?_cons_of_pos _ hx] at h
        injection h with h
        subst h
        exact ⟨[], xs, rfl, by simp, hx⟩
      · rw [List.find?_cons_of_neg _ (by simpa using hx)] at h
        rcases ih h with ⟨pre, post, hl, hpre, hp⟩
        refine ⟨x :: pre, post, by simp [hl], ?_, hp⟩
        intro b hb
        rcases List.mem_cons.1 hb with hb | hb
        · subst hb; simpa using hx
        · exact hpre b hb

theorem fsLookup_fsSetMode (fs : FS) (d n : String) (v : Nat) (m : FileMeta)
    (h : fsLookup fs d n = some m) :
    fsLookup (fsSetMode fs d n v) d n = some { m with mode := v } := by
  induction fs with
  | nil => cases h
  | cons e fs ih =>
      by_cases hc : e.dir = d ∧ e.name = n
      · rw [fsLookup, if_pos hc] at h
        injection h with h
        unfold fsSetMode
        simp only [List.map_cons, if_pos hc]
        simp [fsLookup, hc.1, hc.2, h]
      · rw [fsLookup, if_neg hc] at h
        unfold fsSetMode
        simp only [List.map_cons, if_neg hc]
        rw [fsLookup, if_neg hc]
        exact ih h

theorem checkOrInstallTool_miss_decomp (s : SatFn) (arch platform : String)
    (tool : Tool) (w : World) (r1 : InstalledTool) (w1 : World) (e1 : List Effect)
    (hfind : tcFind s w.cache tool.name (tool.versionSpec.getD "*") = none)
    (h : checkOrInstallTool s arch platform tool w = .ok (r1, w1, e1)) :
    ∃ rel extractDir fs1 effs1 d2 fs3 effs3,
      getRelease s arch platform tool w.pages = .ok rel ∧
      stageArtifact tool rel w = .ok (extractDir, fs1, effs1) ∧
      normalizeDir fs1 extractDir = .ok d2 ∧
      handleBadBinaryPermissions platform tool (cachePath tool.name rel.version)
          ((fs1.filter (fun e => e.dir = d2)).map
            (fun e => { e with dir := cachePath tool.name rel.version }) ++ fs1) =
        .ok (fs3, effs3) ∧
      r1 = { owner := tool.owner, name := tool.name,
             version := basename (dirname (cachePath tool.name rel.version)),
             dir := cachePath tool.name rel.version, bin := tool.bin } ∧
      w1 = { w with
             cache := { name := tool.name, version := rel.version,
                        dir := cachePath tool.name rel.version,
                        sourceDir := d2 } :: w.cache,
             fs := fs3 } ∧
      e1 = [.network, .download rel.downloadUrl] ++ effs1 ++ [.fsMutation] ++ effs3 := by
  unfold checkOrInstallTool at h
  simp only [hfind] at h
  cases hrel : getRelease s arch platform tool w.pages with
  | error e => simp only [hrel] at h; exact Except.noConfusion h
  | ok rel =>
      simp only [hrel] at h
      cases hstage : stageArtifact tool rel w with
      | error e => simp only [hstage] at h; exact Except.noConfusion h
      | ok stage =>
          obtain ⟨extractDir, fs1, effs1⟩ := stage
          simp only [hstage] at h
          cases hnorm : normalizeDir fs1 extractDir with
          | error e => simp only [hnorm] at h; exact Except.noConfusion h
          | ok d2 =>
              simp only [hnorm, tcCacheDir] at h
              cases hperm : handleBadBinaryPermissions platform tool
                  (cachePath tool.name rel.version)
                  ((fs1.filter (fun e => e.dir = d2)).map
                    (fun e => { e with dir := cachePath tool.name rel.version }) ++ fs1) with
              | error e => simp only [hperm] at h; exact Except.noConfusion h
              | ok out =>
                  obtain ⟨fs3, effs3⟩ := out
                  simp only [hperm] at h
                  injection h with h
                  injection h with ha hb
                  injection hb with hbw hbe
                  exact ⟨rel, extractDir, fs1, effs1, d2, fs3, effs3, rfl, hstage, hnorm,
                         hperm, ha.symm, hbw.symm, hbe.symm⟩

/-! ## Claim theorems -/

/-- The supported (arch, platform) table of `getTargets`. -/
def supportedPlatforms : List (String × String) :=
  [("x64", "linux"), ("x64", "darwin"), ("x64", "win32"),
   ("arm64", "linux"), ("arm64", "darwin")]

/-- C5: for every (arch, platform) pair in the supported table,
`getTargets` returns a non-empty deterministically ordered list — with
exactly two targets per architecture for Linux, the musl target before the
gnu one — and for every pair outside the table it fails with an error
carrying the offending architecture and platform. -/
theorem C5_resolve_targets (arch platform : String) :
    ((arch, platform) ∈ supportedPlatforms →
      ∃ ts, getTargets arch platform = .ok ts ∧ ts ≠ []) ∧
    getTargets "x64" "linux" =
      .ok ["x86_64-unknown-linux-musl", "x86_64-unknown-linux-gnu"] ∧
    getTargets "arm64" "linux" =
      .ok ["aarch64-unknown-linux-musl", "aarch64-unknown-linux-gnu"] ∧
    ((arch, platform) ∉ supportedPlatforms →
      ∃ s1 s2, getTargets arch platform = .error (s1 ++ arch ++ s2 ++ platform)) := by
  refine ⟨?_, rfl, rfl, ?_⟩
  · intro h
    simp only [supportedPlatforms, List.mem_cons, List.not_mem_nil, or_false,
      Prod.mk.injEq] at h
    rcases h with ⟨h1, h2⟩ | ⟨h1, h2⟩ | ⟨h1, h2⟩ | ⟨h1, h2⟩ | ⟨h1, h2⟩ <;>
      subst h1 <;> subst h2 <;> exact ⟨_, rfl, by simp⟩
  · intro h
    simp only [supportedPlatforms, List.mem_cons, List.not_mem_nil, or_false,
      Prod.mk.injEq, not_or] at h
    obtain ⟨h1, h2, h3, h4, h5⟩ := h
    refine ⟨"failed to determine any valid targets; arch = ", ", platform = ", ?_⟩
    unfold getTargets targetsErrMsg
    split_ifs <;> simp_all

/-- Witness for `C5_resolve_targets`: a supported pair resolves to a
non-empty list, an unsupported pair fails naming both components. -/
theorem C5_resolve_targets_witness :
    (∃ ts, getTargets "x64" "darwin" = .ok ts ∧ ts ≠ []) ∧
    (∃ s1 s2, getTargets "arm64" "win32" = .error (s1 ++ "arm64" ++ s2 ++ "win32")) :=
  ⟨(C5_resolve_targets "x64" "darwin").1 (by decide),
   (C5_resolve_targets "arm64" "win32").2.2.2 (by decide)⟩

/-- The first (most preferred) Linux target. -/
def muslTarget : String := "x86_64-unknown-linux-musl"

/-- The second Linux target. -/
def gnuTarget : String := "x86_64-unknown-linux-gnu"

/-- An asset whose name contains only the gnu target, listed first. -/
def c1GnuAsset : Asset :=
  { name := "tool-1.0.0-x86_64-unknown-linux-gnu.tar.gz",
    browser_download_url := "https://example.com/gnu.tar.gz" }

/-- An asset whose name contains the musl target, listed second. -/
def c1MuslAsset : Asset :=
  { name := "tool-1.0.0-x86_64-unknown-linux-musl.tar.gz",
    browser_download_url := "https://example.com/musl.tar.gz" }

/-- A release carrying the gnu asset before the musl asset. -/
def c1Release : GhRelease := { tag_name := "v1.0.0", assets := [c1GnuAsset, c1MuslAsset] }

/-- C1 counterexample: the resolved Linux target list prefers musl, the
release has an asset matching the musl target among all its assets, yet
the located candidate is the gnu asset — assets are scanned in the
release's asset order, not in target-priority order, so the claim is
false. -/
theorem C1_counterexample :
    getTargets "x64" "linux" = .ok [muslTarget, gnuTarget] ∧
    strContains c1MuslAsset.name muslTarget = true ∧
    strContains c1GnuAsset.name muslTarget = false ∧
    assetMatch [muslTarget, gnuTarget] c1Release.assets = some c1GnuAsset ∧
    getReleaseFromPages (fun _ _ => true) [muslTarget, gnuTarget] "tool" none
        [[c1Release]] =
      .ok { version := "1.0.0", downloadUrl := "https://example.com/gnu.tar.gz" } :=
  ⟨rfl, rfl, rfl, rfl, rfl⟩

/-- C1 amended: the chosen asset is the first asset in the release's own
asset order whose filename contains any accepted target; every earlier
asset matches no target at all, and target-list order plays no role in
the choice. -/
theorem C1_first_asset_order (targets : List String) (assets : List Asset)
    (a : Asset) (h : assetMatch targets assets = some a) :
    ∃ pre post, assets = pre ++ a :: post ∧
      (∀ b ∈ pre, ∀ t ∈ targets, strContains b.name t = false) ∧
      ∃ t ∈ targets, strContains a.name t = true := by
  rcases find?_decomp _ _ _ h with ⟨pre, post, hl, hpre, hp⟩
  refine ⟨pre, post, hl, ?_, ?_⟩
  · intro b hb t ht
    have hb2 := hpre b hb
    rw [List.any_eq_false] at hb2
    simpa using hb2 t ht
  · rw [List.any_eq_true] at hp
    rcases hp with ⟨t, ht, hpt⟩
    exact ⟨t, ht, by simpa using hpt⟩

/-- Witness for `C1_first_asset_order` at a concrete input. -/
theorem C1_first_asset_order_witness :
    ∃ pre post, [c1GnuAsset, c1MuslAsset] = pre ++ c1GnuAsset :: post ∧
      (∀ b ∈ pre, ∀ t ∈ [muslTarget, gnuTarget], strContains b.name t = false) ∧
      ∃ t ∈ [muslTarget, gnuTarget], strContains c1GnuAsset.name t = true :=
  C1_first_asset_order [muslTarget, gnuTarget] [c1GnuAsset, c1MuslAsset] c1GnuAsset rfl

/-- C8: when no release in any page has an asset matching an accepted
target together with a stripped tag passing the version filter,
`getReleaseFromPages` fails with the `NoMatchingRelease` message naming
the tool and the version constraint. -/
theorem C8_no_matching_release (s : SatFn) (ts : List String) (name : String)
    (vs : Option String) (pages : List (List GhRelease))
    (h : ∀ p ∈ pages, ∀ rel ∈ p, qualifies s ts vs rel = false) :
    getReleaseFromPages s ts name vs pages = .error (releaseErrMsg name vs) ∧
    ∃ s1 s2, releaseErrMsg name vs = s1 ++ name ++ s2 ++ jsUndef vs := by
  constructor
  · unfold getReleaseFromPages
    rw [paginateReleases_eq_nil _ _ (fun p hp => (pageReleases_nil_iff s ts vs p).2 (h p hp))]
    rfl
  · exact ⟨"no release for ", " matching version specifier ", rfl⟩

/-- A release with no assets, used to exercise the no-match failure. -/
def c8Release : GhRelease := { tag_name := "v2.0.0", assets := [] }

/-- Witness for `C8_no_matching_release` at a concrete input. -/
theorem C8_no_matching_release_witness :
    getReleaseFromPages (fun _ _ => true) ["x86_64-unknown-linux-musl"] "mytool"
        (some "1.x") [[c8Release]] =
      .error (releaseErrMsg "mytool" (some "1.x")) ∧
    ∃ s1 s2, releaseErrMsg "mytool" (some "1.x") =
      s1 ++ "mytool" ++ s2 ++ jsUndef (some "1.x") :=
  C8_no_matching_release _ _ _ _ _ (by decide)

/-- C10: with no version constraint the release locator applies no
semantic-version validation to the stripped tag: the result does not
depend on the semver matcher at all, and a release qualifies exactly when
some asset matches an accepted target, regardless of its tag. -/
theorem C10_no_version_validation (s1 s2 : SatFn) (ts : List String)
    (name : String) (pages : List (List GhRelease)) :
    getReleaseFromPages s1 ts name none pages =
      getReleaseFromPages s2 ts name none pages ∧
    ∀ rel, qualifies s1 ts none rel = (toCandidate ts rel).isSome := by
  constructor
  · have hp : pageReleases s1 ts none = pageReleases s2 ts none := by
      funext page
      unfold pageReleases
      exact List.filter_congr (fun a _ => by simp [versionOk])
    unfold getReleaseFromPages
    rw [hp]
  · intro rel
    unfold qualifies
    cases htc : toCandidate ts rel <;> simp [versionOk]

/-- C2: once a page yields a qualifying candidate, the result is the first
candidate of that page — releases on all later (older) pages are never
returned and do not even affect the result — and that candidate is built
from the newest qualifying release: every release before it in scan order
fails to qualify, and its stripped tag passes the version filter. -/
theorem C2_recency_first (s : SatFn) (ts : List String) (name : String)
    (vs : Option String) (pre : List (List GhRelease)) (page : List GhRelease)
    (rest rest' : List (List GhRelease)) (c : Release) (cs : List Release)
    (hpre : ∀ p ∈ pre, pageReleases s ts vs p = [])
    (hpage : pageReleases s ts vs page = c :: cs) :
    getReleaseFromPages s ts name vs (pre ++ page :: rest) = .ok c ∧
    getReleaseFromPages s ts name vs (pre ++ page :: rest') = .ok c ∧
    (∀ p ∈ pre, ∀ rel ∈ p, qualifies s ts vs rel = false) ∧
    ∃ rpre rel rpost, page = rpre ++ rel :: rpost ∧
      (∀ x ∈ rpre, qualifies s ts vs x = false) ∧
      qualifies s ts vs rel = true ∧ toCandidate ts rel = some c ∧
      versionOk s vs c = true := by
  have hres : ∀ r0 : List (List GhRelease),
      getReleaseFromPages s ts name vs (pre ++ page :: r0) = .ok c := by
    intro r0
    unfold getReleaseFromPages
    rw [paginateReleases_pre_nil _ _ _ hpre,
        paginateReleases_cons_of_ne_nil _ _ _ _ _ hpage]
    rfl
  refine ⟨hres rest, hres rest', ?_, ?_⟩
  · intro p hp rel hrel
    exact (pageReleases_nil_iff s ts vs p).1 (hpre p hp) rel hrel
  · rcases pageReleases_cons_decomp s ts vs page c cs hpage with
      ⟨rpre, rel, rpost, h1, h2, h3, h4⟩
    have hcmem : c ∈ pageReleases s ts vs page := by
      rw [hpage]; exact List.mem_cons_self _ _
    exact ⟨rpre, rel, rpost, h1, h2, h3, h4,
           versionOk_of_mem_pageReleases s ts vs page c hcmem⟩

/-- The trivially-true semver matcher used for concrete witnesses. -/
def satAll : SatFn := fun _ _ => true

/-- A newer release on a later position of the matching page. -/
def c2RelNew : GhRelease :=
  { tag_name := "v2.0.0",
    assets := [{ name := "tool-2.0.0-x86_64-unknown-linux-musl.tar.gz",
                 browser_download_url := "https://example.com/2.0.0.tar.gz" }] }

/-- An older qualifying release, listed after the newer one. -/
def c2RelOld : GhRelease :=
  { tag_name := "v1.0.0",
    assets := [{ name := "tool-1.0.0-x86_64-unknown-linux-musl.tar.gz",
                 browser_download_url := "https://example.com/1.0.0.tar.gz" }] }

/-- A newest release with no matching asset. -/
def c2RelNoAsset : GhRelease := { tag_name := "v3.0.0", assets := [] }

/-- The candidate located from `c2RelNew`. -/
def c2CandNew : Release :=
  { version := "2.0.0", downloadUrl := "https://example.com/2.0.0.tar.gz" }

/-- The candidate located from `c2RelOld`. -/
def c2CandOld : Release :=
  { version := "1.0.0", downloadUrl := "https://example.com/1.0.0.tar.gz" }

/-- Witness for `C2_recency_first` at a concrete input: the newest
qualifying release wins and the trailing pages do not matter. -/
theorem C2_recency_first_witness :
    getReleaseFromPages satAll ["x86_64-unknown-linux-musl"] "tool" none
        ([[c2RelNoAsset]] ++ [c2RelNew, c2RelOld] :: [[c2RelOld]]) = .ok c2CandNew ∧
    getReleaseFromPages satAll ["x86_64-unknown-linux-musl"] "tool" none
        ([[c2RelNoAsset]] ++ [c2RelNew, c2RelOld] :: []) = .ok c2CandNew ∧
    (∀ p ∈ [[c2RelNoAsset]], ∀ rel ∈ p,
      qualifies satAll ["x86_64-unknown-linux-musl"] none rel = false) ∧
    ∃ rpre rel rpost, [c2RelNew, c2RelOld] = rpre ++ rel :: rpost ∧
      (∀ x ∈ rpre, qualifies satAll ["x86_64-unknown-linux-musl"] none x = false) ∧
      qualifies satAll ["x86_64-unknown-linux-musl"] none rel = true ∧
      toCandidate ["x86_64-unknown-linux-musl"] rel = some c2CandNew ∧
      versionOk satAll none c2CandNew = true :=
  C2_recency_first satAll ["x86_64-unknown-linux-musl"] "tool" none
    [[c2RelNoAsset]] [c2RelNew, c2RelOld] [[c2RelOld]] [] c2CandNew [c2CandOld]
    (by decide) (by decide)

/-- C7: on a non-Windows target, whenever the located binary (explicit
`bin` if given, else a case-insensitive match of the tool name among the
directory's entries, else the tool name itself) exists, the repair
succeeds and leaves that binary executable — an already-executable binary
is untouched, a non-executable one is `chmod`ed to mode 0o755 rather than
rejected; on a Windows target nothing is checked or mutated. -/
theorem C7_permission_repair (platform : String) (tool : Tool) (d : String) (fs : FS) :
    (platform = "win32" → handleBadBinaryPermissions platform tool d fs = .ok (fs, [])) ∧
    (platform ≠ "win32" →
      ∀ m, fsLookup fs d (locatedBin tool fs d) = some m →
        ∃ fs2 effs, handleBadBinaryPermissions platform tool d fs = .ok (fs2, effs) ∧
          ∃ m2, fsLookup fs2 d (locatedBin tool fs d) = some m2 ∧
            canExecute m2.mode = true ∧
            (canExecute m.mode = true → fs2 = fs ∧ effs = []) ∧
            (canExecute m.mode = false → m2.mode = 0o755 ∧ effs = [.fsMutation])) := by
  constructor
  · intro hw
    unfold handleBadBinaryPermissions
    rw [if_pos hw]
  · intro hw m hm
    simp only [handleBadBinaryPermissions, if_neg hw, hm]
    by_cases hx : canExecute m.mode = true
    · rw [if_pos hx]
      exact ⟨fs, [], rfl, m, hm, hx, fun _ => ⟨rfl, rfl⟩,
             fun hc => absurd hx (by simp [hc])⟩
    · rw [if_neg hx]
      refine ⟨fsSetMode fs d (locatedBin tool fs d) 0o755, [.fsMutation], rfl, ?_⟩
      have hl := fsLookup_fsSetMode fs d (locatedBin tool fs d) 0o755 m hm
      refine ⟨{ m with mode := 0o755 }, hl,
        show canExecute 0o755 = true by decide, ?_, fun _ => ⟨rfl, rfl⟩⟩
      intro hc
      exact absurd hc hx

/-- The tool used by the permission-repair witness. -/
def c7Tool : Tool := { owner := "me", name := "mytool", versionSpec := none, bin := none }

/-- A directory holding one non-executable binary named like the tool. -/
def c7Fs : FS := [{ dir := "/d", name := "mytool", meta := { isDir := false, mode := 0o644 } }]

/-- Witness for `C7_permission_repair`: on win32 nothing happens, on linux
the non-executable binary is repaired to 0o755. -/
theorem C7_permission_repair_witness :
    handleBadBinaryPermissions "win32" c7Tool "/d" c7Fs = .ok (c7Fs, []) ∧
    (∃ fs2 effs, handleBadBinaryPermissions "linux" c7Tool "/d" c7Fs = .ok (fs2, effs) ∧
      ∃ m2, fsLookup fs2 "/d" (locatedBin c7Tool c7Fs "/d") = some m2 ∧
        canExecute m2.mode = true ∧
        (canExecute (FileMeta.mk false 0o644).mode = true → fs2 = c7Fs ∧ effs = []) ∧
        (canExecute (FileMeta.mk false 0o644).mode = false →
          m2.mode = 0o755 ∧ effs = [.fsMutation])) :=
  ⟨(C7_permission_repair "win32" c7Tool "/d" c7Fs).1 rfl,
   (C7_permission_repair "linux" c7Tool "/d" c7Fs).2 (by decide)
     (FileMeta.mk false 0o644) rfl⟩

/-- C9: conflicting configuration — a combined repo spec together with a
separate owner or name, or a version constraint both inside the combined
spec and standalone — makes the input validation fail with one of the two
conflict messages, and `checkOrInstallTool` (the only step touching the
network) is never invoked. -/
theorem C9_conflicting_input (i : ActionInputs)
    (h : (i.repoSpec ≠ "" ∧ (i.owner ≠ "" ∨ i.name ≠ "")) ∨
         (i.repoSpec ≠ "" ∧ jsTruthy (jsSplitLimit2 '@' i.repoSpec).2 = true ∧
           i.versionSpec ≠ "")) :
    ∃ msg, mainValidate i = .failed msg ∧
      (msg = conflictRepoOwnerMsg ∨ msg = conflictTwoVersionsMsg) ∧
      ∀ o n v a, mainValidate i ≠ .invoke o n v a := by
  have hrepo : i.repoSpec ≠ "" := by
    rcases h with ⟨h1, _⟩ | ⟨h1, _, _⟩ <;> exact h1
  by_cases how : i.owner ≠ "" ∨ i.name ≠ ""
  · refine ⟨conflictRepoOwnerMsg, ?_, Or.inl rfl, ?_⟩
    · simp [mainValidate, hrepo, how]
    · intro o n v a
      simp [mainValidate, hrepo, how]
  · have hver : jsTruthy (jsSplitLimit2 '@' i.repoSpec).2 = true ∧ i.versionSpec ≠ "" := by
      rcases h with ⟨_, h2⟩ | ⟨_, h2, h3⟩
      · exact absurd h2 how
      · exact ⟨h2, h3⟩
    refine ⟨conflictTwoVersionsMsg, ?_, Or.inr rfl, ?_⟩
    · simp [mainValidate, hrepo, how, hver.1, hver.2]
    · intro o n v a
      simp [mainValidate, hrepo, how, hver.1, hver.2]

/-- Witness for `C9_conflicting_input`: both conflict shapes at concrete
inputs. -/
theorem C9_conflicting_input_witness :
    (∃ msg, mainValidate ⟨"o/n", "x", "", "", ""⟩ = .failed msg ∧
      (msg = conflictRepoOwnerMsg ∨ msg = conflictTwoVersionsMsg) ∧
      ∀ o n v a, mainValidate ⟨"o/n", "x", "", "", ""⟩ ≠ .invoke o n v a) ∧
    (∃ msg, mainValidate ⟨"o/n@1.0", "", "", "", "2.0"⟩ = .failed msg ∧
      (msg = conflictRepoOwnerMsg ∨ msg = conflictTwoVersionsMsg) ∧
      ∀ o n v a, mainValidate ⟨"o/n@1.0", "", "", "", "2.0"⟩ ≠ .invoke o n v a) :=
  ⟨C9_conflicting_input ⟨"o/n", "x", "", "", ""⟩ (Or.inl (by decide)),
   C9_conflicting_input ⟨"o/n@1.0", "", "", "", "2.0"⟩ (Or.inr (by decide))⟩

/-- C3: running the installer a second time for the same tool and version
constraint against the world left by a successful first run performs no
network request, no download, no extraction and no filesystem mutation
(an empty effect trace), leaves the world unchanged, and returns an
`InstalledTool` identical to the first run's result.  Requires of the
semver matcher only that the wildcard `"*"` accepts every version. -/
theorem C3_warm_cache_idempotent (s : SatFn) (hstar : ∀ v, s v "*" = true)
    (arch platform : String) (tool : Tool) (w : World) (r1 : InstalledTool)
    (w1 : World) (e1 : List Effect)
    (h : checkOrInstallTool s arch platform tool w = .ok (r1, w1, e1)) :
    checkOrInstallTool s arch platform tool w1 = .ok (r1, w1, []) := by
  cases hfind : tcFind s w.cache tool.name (tool.versionSpec.getD "*") with
  | some dir =>
      unfold checkOrInstallTool at h
      simp only [hfind] at h
      injection h with h
      injection h with ha hb
      injection hb with hbw hbe
      subst hbw
      unfold checkOrInstallTool
      simp only [hfind]
      rw [ha]
  | none =>
      obtain ⟨rel, extractDir, fs1, effs1, d2, fs3, effs3, hrel, hstage, hnorm, hperm,
              hr1, hw1, he1⟩ :=
        checkOrInstallTool_miss_decomp s arch platform tool w r1 w1 e1 hfind h
      have hsat : s rel.version (tool.versionSpec.getD "*") = true := by
        cases hvs : tool.versionSpec with
        | none => simpa using hstar rel.version
        | some v =>
            have hok := getRelease_ok_versionOk s arch platform tool w.pages rel hrel
            rw [hvs] at hok
            simpa [versionOk] using hok
      have htf : tcFind s w1.cache tool.name (tool.versionSpec.getD "*") =
          some (cachePath tool.name rel.version) := by
        simp only [hw1]
        rw [tcFind, if_pos ⟨rfl, hsat⟩]
      unfold checkOrInstallTool
      simp only [htf]
      rw [hr1]

/-- The tool of the warm-cache witness. -/
def c3Tool : Tool := { owner := "me", name := "mytool", versionSpec := none, bin := none }

/-- The cached directory of the warm-cache witness. -/
def c3Dir : String := cachePath "mytool" "1.0.0"

/-- A world whose cache already holds the tool. -/
def c3World : World :=
  { cache := [{ name := "mytool", version := "1.0.0", dir := c3Dir,
                sourceDir := stagingDir }],
    pages := [], fs := [], extractDirPath := "/x", extractedEntries := [] }

/-- The installed tool a warm-cache run reports. -/
def c3Result : InstalledTool :=
  { owner := "me", name := "mytool", version := "1.0.0", dir := c3Dir, bin := none }

/-- Witness for `C3_warm_cache_idempotent`: a warm-cache run at a concrete
world, repeated with identical result, unchanged world and no effects. -/
theorem C3_warm_cache_idempotent_witness :
    checkOrInstallTool satAll "x64" "linux" c3Tool c3World =
      .ok (c3Result, c3World, []) :=
  C3_warm_cache_idempotent satAll (fun _ => rfl) "x64" "linux" c3Tool c3World
    c3Result c3World [] rfl

/-- C6: on a successful cache-miss run, the directory stored into the
cache equals the inner directory when the extraction root's immediate
contents are exactly one entry that is a directory, and equals the
extraction root unchanged in every other case (single file, or several
entries); the conclusion names the inner directory itself, so the descent
is applied exactly once and never recursively. -/
theorem C6_single_dir_descent (s : SatFn) (arch platform : String) (tool : Tool)
    (w : World) (r1 : InstalledTool) (w1 : World) (e1 : List Effect)
    (hfind : tcFind s w.cache tool.name (tool.versionSpec.getD "*") = none)
    (h : checkOrInstallTool s arch platform tool w = .ok (r1, w1, e1)) :
    ∃ rel extractDir fs1 effs1,
      getRelease s arch platform tool w.pages = .ok rel ∧
      stageArtifact tool rel w = .ok (extractDir, fs1, effs1) ∧
      ∃ entry rest, w1.cache = entry :: rest ∧
        ((∀ f m, readdir fs1 extractDir = [f] →
            fsLookup fs1 extractDir f = some m →
            entry.sourceDir = if m.isDir = true then pathJoin extractDir f
                              else extractDir) ∧
         ((readdir fs1 extractDir).length ≠ 1 → entry.sourceDir = extractDir)) := by
  obtain ⟨rel, extractDir, fs1, effs1, d2, fs3, effs3, hrel, hstage, hnorm, hperm,
          hr1, hw1, he1⟩ :=
    checkOrInstallTool_miss_decomp s arch platform tool w r1 w1 e1 hfind h
  refine ⟨rel, extractDir, fs1, effs1, hrel, hstage,
          { name := tool.name, version := rel.version,
            dir := cachePath tool.name rel.version, sourceDir := d2 }, w.cache,
          by rw [hw1], ?_, ?_⟩
  · intro f m hf hm
    unfold normalizeDir at hnorm
    simp only [hf, hm] at hnorm
    injection hnorm with hnorm
    exact hnorm.symm
  · intro hlen
    unfold normalizeDir at hnorm
    cases hrd : readdir fs1 extractDir with
    | nil =>
        simp only [hrd] at hnorm
        injection hnorm with hnorm
        exact hnorm.symm
    | cons a l =>
        cases l with
        | nil => rw [hrd] at hlen; simp at hlen
        | cons b l2 =>
            simp only [hrd] at hnorm
            injection hnorm with hnorm
            exact hnorm.symm

/-- The tool of the single-directory-descent witness. -/
def c6Tool : Tool := { owner := "me", name := "mytool", versionSpec := none, bin := none }

/-- A release whose single asset is a zip archive for the musl target. -/
def c6Rel : GhRelease :=
  { tag_name := "v2.0.0",
    assets := [{ name := "mytool-x86_64-unknown-linux-musl.zip",
                 browser_download_url := "https://example.com/mytool.zip" }] }

/-- A cold world whose extraction deposits one nested directory holding
the binary. -/
def c6World : World :=
  { cache := [], pages := [[c6Rel]], fs := [], extractDirPath := "/extract",
    extractedEntries :=
      [{ dir := "/extract", name := "mytool-2.0.0",
         meta := { isDir := true, mode := 0o755 } },
       { dir := "/extract/mytool-2.0.0", name := "mytool",
         meta := { isDir := false, mode := 0o644 } }] }

/-- The installed tool the `c6World` run reports. -/
def c6Result : InstalledTool :=
  { owner := "me", name := "mytool", version := "2.0.0",
    dir := cachePath "mytool" "2.0.0", bin := none }

/-- The world after the `c6World` run: the inner directory was cached and
the cached binary was made executable. -/
def c6WorldAfter : World :=
  { cache := [{ name := "mytool", version := "2.0.0",
                dir := cachePath "mytool" "2.0.0",
                sourceDir := "/extract/mytool-2.0.0" }],
    pages := [[c6Rel]],
    fs := [{ dir := cachePath "mytool" "2.0.0", name := "mytool",
             meta := { isDir := false, mode := 0o755 } },
           { dir := "/extract", name := "mytool-2.0.0",
             meta := { isDir := true, mode := 0o755 } },
           { dir := "/extract/mytool-2.0.0", name := "mytool",
             meta := { isDir := false, mode := 0o644 } }],
    extractDirPath := "/extract",
    extractedEntries :=
      [{ dir := "/extract", name := "mytool-2.0.0",
         meta := { isDir := true, mode := 0o755 } },
       { dir := "/extract/mytool-2.0.0", name := "mytool",
         meta := { isDir := false, mode := 0o644 } }] }

/-- The effect trace of the `c6World` run. -/
def c6Effects : List Effect :=
  [.network, .download "https://example.com/mytool.zip", .extract,
   .fsMutation, .fsMutation]

/-- Witness for `C6_single_dir_descent` at the concrete nested-archive
world. -/
theorem C6_single_dir_descent_witness :
    ∃ rel extractDir fs1 effs1,
      getRelease satAll "x64" "linux" c6Tool c6World.pages = .ok rel ∧
      stageArtifact c6Tool rel c6World = .ok (extractDir, fs1, effs1) ∧
      ∃ entry rest, c6WorldAfter.cache = entry :: rest ∧
        ((∀ f m, readdir fs1 extractDir = [f] →
            fsLookup fs1 extractDir f = some m →
            entry.sourceDir = if m.isDir = true then pathJoin extractDir f
                              else extractDir) ∧
         ((readdir fs1 extractDir).length ≠ 1 → entry.sourceDir = extractDir)) :=
  C6_single_dir_descent satAll "x64" "linux" c6Tool c6World c6Result c6WorldAfter
    c6Effects rfl rfl

/-- The release of the naked-binary staging bug: its asset URL carries no
archive suffix. -/
def c4Rel : GhRelease :=
  { tag_name := "v1.0.0",
    assets := [{ name := "mytool-x86_64-unknown-linux-musl",
                 browser_download_url :=
                   "https://example.com/mytool-x86_64-unknown-linux-musl" }] }

/-- The tool of the staging-bug run. -/
def c4Tool : Tool := { owner := "me", name := "mytool", versionSpec := none, bin := none }

/-- A cold world in which the well-known staging directory already
exists. -/
def c4World : World :=
  { cache := [], pages := [[c4Rel]],
    fs := [{ dir := stagingDirParent, name := stagingDirName,
             meta := { isDir := true, mode := 0o777 } }],
    extractDirPath := "/x", extractedEntries := [] }

/-- C4 (code bug): for a download URL ending in none of `.zip`, `.tar.gz`,
`.tgz`, a run against a world where the staging directory already exists
does not stage the artifact — it aborts with the mkdir failure message,
because `fs.mkdir(..., { recursive: true })` resolves `undefined` when
nothing needed creating and `checkOrInstallTool` treats that as failure;
the claimed idempotent staging fails on exactly this input. -/
theorem C4_staging_bug :
    strEndsWith "https://example.com/mytool-x86_64-unknown-linux-musl" ".zip" = false ∧
    strEndsWith "https://example.com/mytool-x86_64-unknown-linux-musl" ".tar.gz" = false ∧
    strEndsWith "https://example.com/mytool-x86_64-unknown-linux-musl" ".tgz" = false ∧
    fsLookup c4World.fs stagingDirParent stagingDirName =
      some { isDir := true, mode := 0o777 } ∧
    checkOrInstallTool satAll "x64" "linux" c4Tool c4World =
      .error "Failed to create temporary directory for binary extraction" :=
  ⟨rfl, rfl, rfl, rfl, rfl⟩
